import Mathlib

/-!
Shallow embedding of the Vyber real-time audio engine
(`src/vyber/audio_engine.py`) and verification of the frozen claims
about it.

Samples are modelled as exact rationals (the Python code uses float32
arrays; all claim-relevant behaviour — slicing, padding, cursor
bookkeeping, clamping, cache and ring-buffer arithmetic — is exact).
A stereo frame at the playback layer is a pair of samples; at the
decode layer (before the stereo-forcing step) a frame is a list of
channel samples, mirroring a row of a 2-D numpy array.
-/

namespace Vyber

/-- Module constant SAMPLE_RATE. -/
def SAMPLE_RATE : ℕ := 48000

/-- Module constant CHANNELS. -/
def CHANNELS : ℕ := 2

/-- Module constant BLOCK_SIZE. -/
def BLOCK_SIZE : ℕ := 1024

/-- A stereo frame: one sample per channel. -/
abbrev Frame := ℚ × ℚ

/-- The all-zero stereo frame. -/
def zeroFrame : Frame := (0, 0)

/-- `np.zeros((n, CHANNELS))` : n frames of silence. -/
def silence (n : ℕ) : List Frame := List.replicate n zeroFrame

/-- Pointwise addition of two frames (numpy `+` on a row). -/
def addFrame (a b : Frame) : Frame := (a.1 + b.1, a.2 + b.2)

/-- Pointwise addition of two equal-length sample buffers (numpy `+=`). -/
def addBuf (a b : List Frame) : List Frame := List.zipWith addFrame a b

/-- Scale one frame by a scalar (numpy `*=` on a row). -/
def scaleFrame (v : ℚ) (f : Frame) : Frame := (v * f.1, v * f.2)

/-- Scale a whole buffer by a scalar (numpy `*=`). -/
def scaleBuf (v : ℚ) (b : List Frame) : List Frame := b.map (scaleFrame v)

/-- One sample of `np.clip(x, -1.0, 1.0)`. -/
def clamp1 (x : ℚ) : ℚ := min (max x (-1)) 1

/-- `np.clip` applied to a frame. -/
def clipFrame (f : Frame) : Frame := (clamp1 f.1, clamp1 f.2)

/-- `np.clip(mixed, -1.0, 1.0)` over a whole buffer. -/
def clipBuf (b : List Frame) : List Frame := b.map clipFrame

/-! ### Decode pipeline (`SoundClip._ensure_stereo`, `SoundClip._resample`)

At this layer audio data is a list of frames, each frame a list of
channel samples (a row of the numpy array). -/

/-- `SoundClip._ensure_stereo`: force the data to exactly two channels.
A width-1 array (the mono case: numpy column duplication of column 0)
becomes two identical channels; more than two channels are truncated to
the first two; two channels pass through unchanged. The `ndim == 1`
branch of the Python code is unreachable through `sf.read(...,
always_2d=True)` and is subsumed here by the width-1 case. -/
def ensure_stereo (data : List (List ℚ)) : List (List ℚ) :=
  let ch := (data.headD []).length
  if ch = 1 then data.map (fun fr => [fr.headD 0, fr.headD 0])
  else if 2 < ch then data.map (fun fr => fr.take 2)
  else data

/-- `np.linspace(start, stop, num)` over exact rationals. -/
def linspaceQ (start stop : ℚ) (num : ℕ) : List ℚ :=
  if num = 0 then []
  else if num = 1 then [start]
  else (List.range num).map
    (fun i : ℕ => start + (stop - start) * (i : ℚ) / ((num : ℚ) - 1))

/-- Row-wise linear interpolation `a * (1 - frac) + b * frac`. -/
def lerpRow (a b : List ℚ) (frac : ℚ) : List ℚ :=
  List.zipWith (fun x y => x * (1 - frac) + y * frac) a b

/-- `SoundClip._resample`: linear-interpolation resampling.  The Python
code computes `new_length = int(len(data) * ratio)` (truncation, here
exact: `L * target / orig` in natural division), sample positions
`np.linspace(0, len(data) - 1, new_length)`, floor/ceil neighbours with
the right neighbour capped at `len(data) - 1`, and interpolates by the
fractional part. -/
def resample (data : List (List ℚ)) (orig_sr target_sr : ℕ) : List (List ℚ) :=
  if orig_sr = target_sr then data
  else
    let L := data.length
    let newLength := L * target_sr / orig_sr
    (linspaceQ 0 ((L : ℚ) - 1) newLength).map (fun idx =>
      let left := (Int.floor idx).toNat
      let right := min (left + 1) (L - 1)
      let frac := idx - (left : ℚ)
      lerpRow (data.getD left []) (data.getD right []) frac)

/-! ### Clips and playback instances -/

/-- A decoded clip (`SoundClip`): its path, its decoded stereo buffer,
and the sample rate it was decoded at (`SoundClip.sample_rate` is set
to the target rate at construction). -/
structure SoundClip where
  filepath : String
  data : List Frame
  sample_rate : ℕ
  deriving DecidableEq

/-- A live playback instance (`PlayingSound`). -/
structure PlayingSound where
  clip : SoundClip
  volume : ℚ
  position : ℕ
  finished : Bool
  deriving DecidableEq

/-- `PlayingSound.get_samples(num_frames)`: returns the produced block
together with the instance state after the call (the Python method
mutates `position` and `finished` in place). -/
def PlayingSound.get_samples (p : PlayingSound) (numFrames : ℕ) :
    List Frame × PlayingSound :=
  if p.finished then (silence numFrames, p)
  else if p.clip.data.length ≤ p.position then
    (silence numFrames, { p with finished := true })
  else
    let remaining := p.clip.data.length - p.position
    let count := min numFrames remaining
    let samples := ((p.clip.data.drop p.position).take count).map
      (scaleFrame p.volume)
    if count < numFrames then
      (samples ++ silence (numFrames - count),
       { p with position := p.position + count, finished := true })
    else
      (samples, { p with position := p.position + count })

/-! ### Mic-relay ring buffer (reader side, inlined in
`AudioEngine._cable_callback`, lines 350-371) -/

/-- Wrap-around copy of `k` frames of the ring starting at `start`
(the two-branch copy in `_cable_callback`: `mic_data[:n] =
ring[rp:end]`, or the split across the buffer end). -/
def ringSlice (ring : List Frame) (cap start k : ℕ) : List Frame :=
  if start + k ≤ cap then (ring.drop start).take k
  else ring.drop start ++ ring.take (k - (cap - start))

/-- The mic-relay read performed by `_cable_callback`: given ring
contents, capacity, the reader cursor `rp0`, the writer cursor `wp` and
the block size `n`, returns the `n`-frame block handed to the mix and
the reader cursor after the call.  Follows the source: `available =
(wp - rp) % ring`; if `available > ring // 2` the local cursor jumps to
`(wp - n) % ring` and `available` becomes `n`; then `min(n, available)`
frames are copied with wrap-around and the stored cursor advances only
when at least one frame was copied. -/
def micRelayRead (ring : List Frame) (cap rp0 wp n : ℕ) :
    List Frame × ℕ :=
  let available0 := (((wp : ℤ) - (rp0 : ℤ)).emod (cap : ℤ)).toNat
  let rp := if cap / 2 < available0
    then (((wp : ℤ) - (n : ℤ)).emod (cap : ℤ)).toNat else rp0
  let available := if cap / 2 < available0 then n else available0
  let k := min n available
  if 0 < k then
    (ringSlice ring cap rp k ++ silence (n - k), (rp + k) % cap)
  else
    (silence n, rp0)

/-! ### The engine (`AudioEngine`)

Stream objects, device queries and file decoding are I/O performed by
external libraries; they enter the model as explicit parameters: a
decoder oracle `dec : String → ℕ → Option (List Frame)` standing for
the decode-and-resample of a file at a target rate (`none` = the
constructor raised), a device-query result `q : Option ℕ` standing for
the virtual-cable device's reported `default_samplerate` (`none` = the
query raised), and booleans for whether the speaker/cable streams are
currently active. -/

/-- Engine state (the claim-relevant fields of `AudioEngine`). -/
structure AudioEngine where
  playing : List PlayingSound
  master_volume : ℚ
  output_mode : String
  virtual_cable_device : Option ℕ
  effective_rate : ℕ
  cache : List (String × SoundClip)
  cached_mix : List Frame
  mic_passthrough : Bool
  mic_ring : List Frame
  mic_ring_size : ℕ
  mic_write_pos : ℕ
  mic_read_pos : ℕ

/-- The state built by `AudioEngine.__init__`. -/
def initEngine : AudioEngine where
  playing := []
  master_volume := 4 / 5
  output_mode := "both"
  virtual_cable_device := none
  effective_rate := SAMPLE_RATE
  cache := []
  cached_mix := silence BLOCK_SIZE
  mic_passthrough := true
  mic_ring := silence (BLOCK_SIZE * 8)
  mic_ring_size := BLOCK_SIZE * 8
  mic_write_pos := 0
  mic_read_pos := 0

/-- `AudioEngine._detect_effective_rate` as a function of the configured
cable device and the query oracle: no cable device or a failed or
non-positive query falls back to `SAMPLE_RATE`, otherwise the device's
native rate is adopted. -/
def detectEffectiveRate (cableDevice : Option ℕ) (q : Option ℕ) : ℕ :=
  match cableDevice with
  | none => SAMPLE_RATE
  | some _ =>
    match q with
    | some sr => if 0 < sr then sr else SAMPLE_RATE
    | none => SAMPLE_RATE

/-- `AudioEngine.start` restricted to its state effect: re-detect the
effective rate and clear the clip cache when it changed.  (Stream
teardown and reopening touch no claim-relevant state.) -/
def AudioEngine.start (e : AudioEngine) (q : Option ℕ) : AudioEngine :=
  let old := e.effective_rate
  let newRate := detectEffectiveRate e.virtual_cable_device q
  if newRate ≠ old then
    { e with effective_rate := newRate, cache := [] }
  else
    { e with effective_rate := newRate }

/-- `AudioEngine.set_output_mode`: ignore invalid modes, otherwise set
the mode and restart via `start`. -/
def AudioEngine.set_output_mode (e : AudioEngine) (mode : String)
    (q : Option ℕ) : AudioEngine :=
  if mode = "speakers" ∨ mode = "mic" ∨ mode = "both" then
    AudioEngine.start { e with output_mode := mode } q
  else e

/-- `AudioEngine.load_sound`: serve from the cache, otherwise decode at
the current effective rate and insert into the cache; a failed decode
returns `none` and leaves the engine untouched. -/
def AudioEngine.load_sound (e : AudioEngine)
    (dec : String → ℕ → Option (List Frame)) (filepath : String) :
    Option SoundClip × AudioEngine :=
  match e.cache.lookup filepath with
  | some clip => (some clip, e)
  | none =>
    match dec filepath e.effective_rate with
    | some d =>
      let clip : SoundClip := ⟨filepath, d, e.effective_rate⟩
      (some clip, { e with cache := (filepath, clip) :: e.cache })
    | none => (none, e)

/-- `AudioEngine._needs_speaker`. -/
def AudioEngine.needs_speaker (e : AudioEngine) : Bool :=
  e.output_mode == "speakers" || e.output_mode == "both"

/-- `AudioEngine._needs_cable`. -/
def AudioEngine.needs_cable (e : AudioEngine) : Bool :=
  e.output_mode == "mic" || e.output_mode == "both"

/-- `AudioEngine.play_sound`: load-or-fetch the clip; on failure return
with the state unchanged; on success append a fresh instance and
auto-start streams whose role is needed but inactive. -/
def AudioEngine.play_sound (e : AudioEngine)
    (dec : String → ℕ → Option (List Frame)) (q : Option ℕ)
    (speakerActive cableActive : Bool) (filepath : String)
    (volume : ℚ) : AudioEngine :=
  match e.load_sound dec filepath with
  | (none, e1) => e1
  | (some clip, e1) =>
    let e2 := { e1 with
      playing := e1.playing ++ [⟨clip, volume, 0, false⟩] }
    let e3 := if e2.needs_speaker && !speakerActive
      then e2.start q else e2
    if e3.needs_cable && !cableActive then e3.start q else e3

/-- `AudioEngine.stop_all`. -/
def AudioEngine.stop_all (e : AudioEngine) : AudioEngine :=
  { e with playing := [] }

/-- `AudioEngine.stop_sound`: keep an instance when it is finished or
references a different file. -/
def AudioEngine.stop_sound (e : AudioEngine) (filepath : String) :
    AudioEngine :=
  { e with playing :=
      e.playing.filter (fun p => p.finished || p.clip.filepath != filepath) }

/-- `AudioEngine.get_playing_count`. -/
def AudioEngine.get_playing_count (e : AudioEngine) : ℕ :=
  (e.playing.filter (fun p => !p.finished)).length

/-- The accumulation loop of `_mix_playing_sounds`: walk the instance
list, pulling from each not-yet-finished instance and adding the pull
into the accumulator; returns the accumulated buffer and the list of
post-pull instance states in order. -/
def mixLoop (numFrames : ℕ) :
    List PlayingSound → List Frame → List Frame × List PlayingSound
  | [], acc => (acc, [])
  | p :: ps, acc =>
    if p.finished then
      let r := mixLoop numFrames ps acc
      (r.1, p :: r.2)
    else
      let s := p.get_samples numFrames
      let r := mixLoop numFrames ps (addBuf acc s.1)
      (r.1, s.2 :: r.2)

/-- `AudioEngine._mix_playing_sounds`: accumulate the pulls of all
non-finished instances, drop instances now marked finished, apply
master volume, hard-clip to `[-1, 1]`. -/
def AudioEngine.mix_playing_sounds (e : AudioEngine) (numFrames : ℕ) :
    List Frame × AudioEngine :=
  let r := mixLoop numFrames e.playing (silence numFrames)
  (clipBuf (scaleBuf e.master_volume r.1),
   { e with playing := r.2.filter (fun p => !p.finished) })

/-- `AudioEngine._speaker_callback`: mix a block, cache it for the
cable callback when the mode is "both", write it out. -/
def AudioEngine.speaker_callback (e : AudioEngine) (frames : ℕ) :
    List Frame × AudioEngine :=
  let r := e.mix_playing_sounds frames
  if r.2.output_mode = "both" then
    (r.1, { r.2 with cached_mix := r.1 })
  else (r.1, r.2)

/-- `AudioEngine._cable_callback`: in mode "both" reuse the cached mix
(without touching the instances), otherwise mix directly; then add the
mic-relay block when passthrough is on, clip, and write out. -/
def AudioEngine.cable_callback (e : AudioEngine) (frames : ℕ) :
    List Frame × AudioEngine :=
  let r := if e.output_mode = "both"
    then (e.cached_mix.take frames, e)
    else e.mix_playing_sounds frames
  let r2 := if r.2.mic_passthrough then
      let m := micRelayRead r.2.mic_ring r.2.mic_ring_size
        r.2.mic_read_pos r.2.mic_write_pos frames
      (addBuf r.1 m.1, { r.2 with mic_read_pos := m.2 })
    else r
  (clipBuf r2.1, r2.2)

/-! ### Operation sequences over the engine facade -/

/-- One external operation on the engine: a play request, a stop by
path, a stop-all, or one audio tick (a `_mix_playing_sounds` pass, as
driven by a stream callback). -/
inductive EngineOp where
  | play (path : String) (volume : ℚ)
  | stopOne (path : String)
  | stopAll
  | tick (n : ℕ)

/-- Apply one operation to the engine state. -/
def applyOp (dec : String → ℕ → Option (List Frame)) (q : Option ℕ)
    (speakerActive cableActive : Bool) (e : AudioEngine) :
    EngineOp → AudioEngine
  | .play path v => e.play_sound dec q speakerActive cableActive path v
  | .stopOne path => e.stop_sound path
  | .stopAll => e.stop_all
  | .tick n => (e.mix_playing_sounds n).2

/-- Run a sequence of operations from a starting state. -/
def runOps (dec : String → ℕ → Option (List Frame)) (q : Option ℕ)
    (speakerActive cableActive : Bool) (e : AudioEngine)
    (ops : List EngineOp) : AudioEngine :=
  ops.foldl (applyOp dec q speakerActive cableActive) e

/-! ## Theorems -/

/-- Helper: a clip used in several concrete checks — two frames,
fully left-panned then fully right-panned. -/
def clipLR : SoundClip := ⟨"lr", [(1, 0), (0, 1)], 48000⟩

/-- C2: for every playback instance and block size `n`: an exhausted
instance yields `n` frames of exact silence and sets `finished`; when
fewer than `n` frames remain, the remainder (scaled by the instance
volume) is returned followed by zero-padding to length `n` and
`finished` is set; in general the returned block is the next
`min n remaining` clip frames pre-multiplied by the instance volume,
zero-padded to length `n`; and a finished instance returns `n` frames
of silence with its state unchanged, so every further pull again
returns silence (idempotent). -/
theorem claim_C2_pull_contract (p : PlayingSound) (n : ℕ) :
    (p.finished = true → p.get_samples n = (silence n, p)) ∧
    (p.finished = false → p.clip.data.length ≤ p.position →
      p.get_samples n = (silence n, { p with finished := true })) ∧
    (p.finished = false → p.position < p.clip.data.length →
      p.clip.data.length - p.position < n →
      p.get_samples n =
        ((p.clip.data.drop p.position).map (scaleFrame p.volume) ++
          silence (n - (p.clip.data.length - p.position)),
         { p with position := p.clip.data.length, finished := true })) ∧
    (p.finished = false → p.position < p.clip.data.length →
      (p.get_samples n).1 =
        ((p.clip.data.drop p.position).take
            (min n (p.clip.data.length - p.position))).map
          (scaleFrame p.volume) ++
          silence (n - min n (p.clip.data.length - p.position))) := by
  refine ⟨?_, ?_, ?_, ?_⟩
  · intro h
    simp [PlayingSound.get_samples, h]
  · intro h1 h2
    simp [PlayingSound.get_samples, h1, h2]
  · intro h1 h2 h3
    have hmin : min n (p.clip.data.length - p.position) =
        p.clip.data.length - p.position := by omega
    have htake : (p.clip.data.drop p.position).take
        (p.clip.data.length - p.position) = p.clip.data.drop p.position := by
      apply List.take_of_length_le
      simp [List.length_drop]
    have hpos : p.position + (p.clip.data.length - p.position) =
        p.clip.data.length := by omega
    simp only [PlayingSound.get_samples, h1, Bool.false_eq_true,
      if_false, if_neg (by omega : ¬ p.clip.data.length ≤ p.position),
      hmin, htake, hpos, if_pos h3]
  · intro h1 h2
    by_cases h3 : min n (p.clip.data.length - p.position) < n
    · simp only [PlayingSound.get_samples, h1, Bool.false_eq_true,
        if_false, if_neg (by omega : ¬ p.clip.data.length ≤ p.position),
        if_pos h3]
    · have hmin : min n (p.clip.data.length - p.position) = n := by omega
      simp only [PlayingSound.get_samples, h1, Bool.false_eq_true,
        if_false, if_neg (by omega : ¬ p.clip.data.length ≤ p.position),
        if_neg h3, hmin]
      simp [silence]

/-- Concrete check of the C2 contract on a two-frame clip read at its
tail: one remaining frame scaled by volume 1/2, padded to three frames,
with the finished flag set. -/
theorem claim_C2_pull_contract_witness :
    (⟨clipLR, 1/2, 1, false⟩ : PlayingSound).get_samples 3 =
      ([(0, 1/2), (0, 0), (0, 0)],
       (⟨clipLR, 1/2, 2, true⟩ : PlayingSound)) := by
  have h := (claim_C2_pull_contract ⟨clipLR, 1/2, 1, false⟩ 3).2.2.1 rfl
    (by decide) (by decide)
  rw [h]
  simp [clipLR, silence, scaleFrame, zeroFrame, List.replicate]

/-- Helper: the accumulated buffer of the mix loop is the left fold of
the pulls of the non-finished instances, in list order, onto the
accumulator. -/
theorem mixLoop_fst (n : ℕ) (ps : List PlayingSound) (acc : List Frame) :
    (mixLoop n ps acc).1 =
      ((ps.filter (fun p => !p.finished)).map
        (fun p => (p.get_samples n).1)).foldl addBuf acc := by
  induction ps generalizing acc with
  | nil => simp [mixLoop]
  | cons p ps ih =>
    by_cases h : p.finished
    · simp [mixLoop, h, ih]
    · simp [mixLoop, h, ih]

/-- Helper: filtering on not-finished leaves only not-finished
instances. -/
theorem filter_all_not_finished (l : List PlayingSound) :
    (l.filter (fun p => !p.finished)).all (fun p => !p.finished) = true := by
  rw [List.all_eq_true]
  intro x hx
  exact (List.mem_filter.mp hx).2

/-- Helper: a one-frame full-scale clip. -/
def clipFull : SoundClip := ⟨"full", [(1, 1)], 48000⟩

/-- Helper: an engine with two instances of the same full-scale clip at
instance volume 1 and master volume 1. -/
def engineTwoFull : AudioEngine := { initEngine with
  playing := [⟨clipFull, 1, 0, false⟩, ⟨clipFull, 1, 0, false⟩],
  master_volume := 1 }

/-- Specification-side description of one mix tick, stated from the
spec's words as the refinement target for C1: the sum of the `n`-frame
pulls of every non-finished playing instance, multiplied by the master
volume, every sample then hard-clipped into `[-1, 1]`. -/
def specMixResult (e : AudioEngine) (n : ℕ) : List Frame :=
  clipBuf (scaleBuf e.master_volume
    (((e.playing.filter (fun p => !p.finished)).map
      (fun p => (p.get_samples n).1)).foldl addBuf (silence n)))

/-- C1: every mix tick produces exactly the sum of the `n`-frame pulls
of the non-finished instances, scaled by the master volume and
hard-clipped to `[-1, 1]`; after the tick no instance marked finished
remains in the live set; and two instances of the same full-scale clip
at instance volume 1 and master volume 1 produce the sample 1 exactly
where the unclipped sum is 2. -/
theorem claim_C1_mix_tick :
    (∀ (e : AudioEngine) (n : ℕ),
      (e.mix_playing_sounds n).1 = specMixResult e n ∧
      ((e.mix_playing_sounds n).2.playing.all (fun p => !p.finished))
        = true) ∧
    (engineTwoFull.mix_playing_sounds 1).1 = [(1, 1)] := by
  constructor
  · intro e n
    constructor
    · simp [AudioEngine.mix_playing_sounds, specMixResult, mixLoop_fst]
    · simp [AudioEngine.mix_playing_sounds, filter_all_not_finished]
  · simp [engineTwoFull, initEngine, clipFull, AudioEngine.mix_playing_sounds,
      mixLoop, PlayingSound.get_samples, silence, addBuf, addFrame, scaleBuf,
      scaleFrame, clipBuf, clipFrame, clamp1, zeroFrame]

/-- C9: when the decode of a filepath fails (and the path is not
already cached, so a decode is actually attempted), `play_sound`
returns normally with the engine state completely unchanged: no
playback instance is appended and the live set and clip cache are
untouched. -/
theorem claim_C9_failed_decode_no_effect (e : AudioEngine)
    (dec : String → ℕ → Option (List Frame)) (q : Option ℕ)
    (speakerActive cableActive : Bool) (path : String) (vol : ℚ)
    (hc : e.cache.lookup path = none)
    (hd : dec path e.effective_rate = none) :
    e.play_sound dec q speakerActive cableActive path vol = e := by
  simp [AudioEngine.play_sound, AudioEngine.load_sound, hc, hd]

/-- Concrete check of C9: a decoder that always fails leaves the
freshly constructed engine untouched. -/
theorem claim_C9_failed_decode_no_effect_witness :
    initEngine.play_sound (fun _ _ => none) none true true "a" 1 =
      initEngine :=
  claim_C9_failed_decode_no_effect initEngine (fun _ _ => none) none
    true true "a" 1 rfl rfl

/-- C4: `start` adopts the newly detected effective rate; when it
equals the previous rate the cache survives untouched, and when it
differs the whole cache is cleared and the next load of any path is a
fresh decode at the new effective rate (the decoded clip carries the
new rate); a `set_output_mode` restart has exactly the same effect on
the cache as `start`. -/
theorem claim_C4_rate_change_invalidates_cache (e : AudioEngine)
    (q : Option ℕ) (dec : String → ℕ → Option (List Frame))
    (path : String) :
    ((e.start q).effective_rate =
      detectEffectiveRate e.virtual_cable_device q) ∧
    (detectEffectiveRate e.virtual_cable_device q = e.effective_rate →
      (e.start q).cache = e.cache) ∧
    (detectEffectiveRate e.virtual_cable_device q ≠ e.effective_rate →
      (e.start q).cache = [] ∧
      ((e.start q).load_sound dec path).1 =
        (dec path (detectEffectiveRate e.virtual_cable_device q)).map
          (fun d =>
            ⟨path, d, detectEffectiveRate e.virtual_cable_device q⟩)) ∧
    (∀ m, m = "speakers" ∨ m = "mic" ∨ m = "both" →
      (e.set_output_mode m q).cache = (e.start q).cache) := by
  refine ⟨?_, ?_, ?_, ?_⟩
  · by_cases h :
      detectEffectiveRate e.virtual_cable_device q = e.effective_rate <;>
      simp [AudioEngine.start, h]
  · intro h; simp [AudioEngine.start, h]
  · intro h
    constructor
    · simp [AudioEngine.start, h]
    · cases hdec : dec path (detectEffectiveRate e.virtual_cable_device q) <;>
        simp [AudioEngine.start, AudioEngine.load_sound, h, hdec]
  · intro m hm
    by_cases h :
      detectEffectiveRate e.virtual_cable_device q = e.effective_rate <;>
      simp [AudioEngine.set_output_mode, hm, AudioEngine.start, h]

/-- Helper: an engine with a configured cable device, a cached clip,
and the default effective rate. -/
def engineCachedCable : AudioEngine := { initEngine with
  virtual_cable_device := some 0,
  cache := [("full", clipFull)] }

/-- Concrete check of C4: a cable device reporting 44100 Hz against the
previous 48000 Hz clears the cached clip on restart. -/
theorem claim_C4_rate_change_invalidates_cache_witness :
    (engineCachedCable.start (some 44100)).cache = [] :=
  ((claim_C4_rate_change_invalidates_cache engineCachedCable
    (some 44100) (fun _ _ => none) "full").2.2.1 (by decide)).1

/-- Helper: an engine in mode "both" whose speaker callback has never
run (the cached mix still holds its initial zeros), with one live
full-scale instance, master volume 1, and mic passthrough off. -/
def engineBothStale : AudioEngine := { initEngine with
  playing := [⟨clipFull, 1, 0, false⟩],
  master_volume := 1,
  mic_passthrough := false }

/-- Refutation of C7: in mode "both" with no speaker-cached block for
the tick (the speaker callback never ran), the cable callback does NOT
fall back to a direct mix of the playing instances: it emits the stale
zero block while a direct mix of the live set would emit a full-scale
sample. -/
theorem claim_C7_counterexample :
    engineBothStale.output_mode = "both" ∧
    (engineBothStale.cable_callback 1).1 = [((0 : ℚ), (0 : ℚ))] ∧
    (engineBothStale.mix_playing_sounds 1).1 = [((1 : ℚ), (1 : ℚ))] ∧
    (engineBothStale.cable_callback 1).1 ≠
      (engineBothStale.mix_playing_sounds 1).1 := by
  refine ⟨rfl, ?_, ?_, ?_⟩
  · simp [engineBothStale, initEngine, AudioEngine.cable_callback, silence,
      List.take_replicate, clipBuf, clipFrame, clamp1, zeroFrame]
    norm_num [BLOCK_SIZE]
  · simp [engineBothStale, initEngine, clipFull,
      AudioEngine.mix_playing_sounds, mixLoop, PlayingSound.get_samples,
      silence, addBuf, addFrame, scaleBuf, scaleFrame, clipBuf, clipFrame,
      clamp1, zeroFrame]
  · simp [engineBothStale, initEngine, clipFull,
      AudioEngine.cable_callback, AudioEngine.mix_playing_sounds, mixLoop,
      PlayingSound.get_samples, silence, addBuf, addFrame, scaleBuf,
      scaleFrame, clipBuf, clipFrame, clamp1, zeroFrame, List.take_replicate]
    norm_num [BLOCK_SIZE]

/-- C7 as amended: in mode "both" every cable-callback tick
unconditionally reuses the stored cached block (which is the
zero-initialised buffer until the speaker callback first writes it),
adds the mic-relay block when passthrough is on, and clips; it never
falls back to a direct mix, and in particular the playing instances
are not advanced. -/
theorem claim_C7_amended_cable_reuse (e : AudioEngine) (n : ℕ)
    (h : e.output_mode = "both") :
    ((e.cable_callback n).1 =
      if e.mic_passthrough then
        clipBuf (addBuf (e.cached_mix.take n)
          (micRelayRead e.mic_ring e.mic_ring_size e.mic_read_pos
            e.mic_write_pos n).1)
      else clipBuf (e.cached_mix.take n)) ∧
    (e.cable_callback n).2.playing = e.playing := by
  unfold AudioEngine.cable_callback
  rw [if_pos h]
  by_cases hm : e.mic_passthrough <;> simp [hm]

/-- Concrete check of the amended C7 on the stale-cache engine. -/
theorem claim_C7_amended_cable_reuse_witness :
    (engineBothStale.cable_callback 1).2.playing =
      engineBothStale.playing :=
  (claim_C7_amended_cable_reuse engineBothStale 1 rfl).2

/-- The methods defined on the `AudioEngine` class in
`src/vyber/audio_engine.py` (its complete `def` list). -/
def audioEngineMethodNames : List String :=
  ["__init__", "start", "_detect_effective_rate", "stop", "_stop_streams",
   "load_sound", "play_sound", "stop_all", "stop_sound", "set_output_mode",
   "set_master_volume", "get_playing_count", "get_playing_filepaths",
   "_mix_playing_sounds", "_speaker_callback", "_cable_callback",
   "_mic_callback", "_log_device_samplerate", "_needs_speaker",
   "_needs_cable", "invalidate_cache"]

/-- The methods `VyberApp._update_status` (src/vyber/app.py, lines
294-300) invokes on the audio engine every 200 ms. -/
def updateStatusEngineCalls : List String :=
  ["get_playing_count", "get_playing_remaining"]

/-- C10 fails on the code: the status updater calls
`get_playing_remaining` on the engine, but `AudioEngine` defines no
such method (every status tick raises `AttributeError`). -/
theorem claim_C10_missing_method :
    "get_playing_remaining" ∈ updateStatusEngineCalls ∧
    "get_playing_remaining" ∉ audioEngineMethodNames := by
  decide

/-- Helper: `linspaceQ` always has exactly `num` entries. -/
theorem linspaceQ_length (start stop : ℚ) (num : ℕ) :
    (linspaceQ start stop num).length = num := by
  unfold linspaceQ
  split
  · simp [*]
  · split
    · simp [*]
    · rw [List.length_map, List.length_range]

/-- Helper: every entry of `linspaceQ 0 s num` lies in `[0, s]`. -/
theorem linspaceQ_mem_bounds (s : ℚ) (hs : 0 ≤ s) (num : ℕ) :
    ∀ x ∈ linspaceQ 0 s num, 0 ≤ x ∧ x ≤ s := by
  intro x hx
  unfold linspaceQ at hx
  split at hx
  · simp at hx
  · split at hx
    · rw [List.mem_singleton] at hx
      subst hx
      exact ⟨le_refl 0, hs⟩
    · obtain ⟨i, hi, rfl⟩ := List.mem_map.mp hx
      rw [List.mem_range] at hi
      have hnum : (2 : ℕ) ≤ num := by omega
      have hpos : (0 : ℚ) < (num : ℚ) - 1 := by
        have h2 : (2 : ℚ) ≤ (num : ℚ) := by exact_mod_cast hnum
        linarith
      have hicast : (i : ℚ) ≤ (num : ℚ) - 1 := by
        have : (i : ℚ) + 1 ≤ (num : ℚ) := by exact_mod_cast hi
        linarith
      constructor
      · simp only [zero_add, sub_zero]
        exact div_nonneg (mul_nonneg hs (Nat.cast_nonneg i)) (le_of_lt hpos)
      · simp only [zero_add, sub_zero]
        rw [div_le_iff₀ hpos]
        exact mul_le_mul_of_nonneg_left hicast hs

/-- Helper: an in-range `getD` is a member of the list. -/
theorem getD_mem_of_lt {α : Type} (l : List α) (i : ℕ) (d : α)
    (h : i < l.length) : l.getD i d ∈ l := by
  rw [List.getD_eq_getElem?_getD, List.getElem?_eq_getElem h]
  simp only [Option.getD_some]
  exact List.getElem_mem h

/-- Helper: resampling preserves the shape "two identical channels":
row-wise interpolation of frames of the form `[a, a]` again yields
frames of that form. -/
theorem resample_pair (data : List (List ℚ)) (o t : ℕ)
    (hd : ∀ fr ∈ data, ∃ a, fr = [a, a]) :
    ∀ fr ∈ resample data o t, ∃ a, fr = [a, a] := by
  intro fr hfr
  unfold resample at hfr
  split at hfr
  · exact hd fr hfr
  · simp only [List.mem_map] at hfr
    obtain ⟨idx, hidx, rfl⟩ := hfr
    rcases data with _ | ⟨f0, rest⟩
    · simp [linspaceQ] at hidx
    · set L := (f0 :: rest).length with hL
      have hL1 : 1 ≤ L := by simp [hL]
      have hsn : (0 : ℚ) ≤ (L : ℚ) - 1 := by
        have : (1 : ℚ) ≤ (L : ℚ) := by exact_mod_cast hL1
        linarith
      have hb := linspaceQ_mem_bounds ((L : ℚ) - 1) hsn _ idx hidx
      have hfl0 : 0 ≤ Int.floor idx := Int.floor_nonneg.mpr hb.1
      have hflub : Int.floor idx ≤ (L : ℤ) - 1 := by
        have h1 : Int.floor idx ≤ Int.floor ((L : ℚ) - 1) :=
          Int.floor_le_floor hb.2
        have h2 : Int.floor ((L : ℚ) - 1) = (L : ℤ) - 1 := by
          rw [show ((L : ℚ) - 1) = (((L : ℤ) - 1 : ℤ) : ℚ) by push_cast; ring]
          exact Int.floor_intCast _
        omega
      have hleft : (Int.floor idx).toNat < L := by omega
      have hright : min ((Int.floor idx).toNat + 1) (L - 1) < L := by omega
      obtain ⟨a, ha⟩ := hd _ (getD_mem_of_lt (f0 :: rest) _ [] hleft)
      obtain ⟨b, hb2⟩ := hd _ (getD_mem_of_lt (f0 :: rest) _ [] hright)
      refine ⟨a * (1 - (idx - ((Int.floor idx).toNat : ℚ))) +
        b * (idx - ((Int.floor idx).toNat : ℚ)), ?_⟩
      simp only [← hL, ha, hb2, lerpRow, List.zipWith]

/-- C5: `ensure_stereo` always yields exactly two channels (given a
rectangular input with at least one channel); a mono source is
duplicated into two sample-for-sample identical channels which remain
identical after resampling; a source with more than two channels is
truncated to its first two. -/
theorem claim_C5_decode_two_channels (data : List (List ℚ)) (ch o t : ℕ)
    (hch : 1 ≤ ch) (hu : ∀ fr ∈ data, fr.length = ch) :
    (∀ fr ∈ ensure_stereo data, fr.length = 2) ∧
    (ch = 1 → ensure_stereo data =
      data.map (fun fr => [fr.headD 0, fr.headD 0])) ∧
    (ch = 1 → ∀ fr ∈ resample (ensure_stereo data) o t, ∃ a, fr = [a, a]) ∧
    (2 < ch → ensure_stereo data = data.map (fun fr => fr.take 2)) := by
  rcases data with _ | ⟨f0, rest⟩
  · refine ⟨by simp [ensure_stereo], by simp [ensure_stereo], ?_,
      by simp [ensure_stereo]⟩
    intro _
    exact resample_pair _ o t (by simp [ensure_stereo])
  · have hhead : ((f0 :: rest).headD []).length = ch :=
      hu f0 (List.mem_cons_self f0 rest)
    have hes : ensure_stereo (f0 :: rest) =
        (if ch = 1 then
          (f0 :: rest).map (fun fr => [fr.headD 0, fr.headD 0])
        else if 2 < ch then (f0 :: rest).map (fun fr => fr.take 2)
        else (f0 :: rest)) := by
      unfold ensure_stereo
      rw [hhead]
    by_cases h1 : ch = 1
    · rw [hes, if_pos h1]
      refine ⟨?_, fun _ => rfl, fun _ => ?_, fun hcon => by omega⟩
      · intro fr hfr
        obtain ⟨g, _, rfl⟩ := List.mem_map.mp hfr
        rfl
      · apply resample_pair
        intro fr hfr
        obtain ⟨g, _, rfl⟩ := List.mem_map.mp hfr
        exact ⟨g.headD 0, rfl⟩
    · by_cases h2 : 2 < ch
      · rw [hes, if_neg h1, if_pos h2]
        refine ⟨?_, fun hcon => by omega, fun hcon => by omega, fun _ => rfl⟩
        intro fr hfr
        obtain ⟨g, hg, rfl⟩ := List.mem_map.mp hfr
        rw [List.length_take, hu g hg]
        omega
      · have h3 : ch = 2 := by omega
        rw [hes, if_neg h1, if_neg h2]
        refine ⟨?_, fun hcon => by omega, fun hcon => by omega,
          fun hcon => by omega⟩
        intro fr hfr
        rw [hu fr hfr, h3]

/-- Helper: the `i`-th entry of `linspaceQ` for `2 ≤ num`. -/
theorem linspaceQ_getElem (start stop : ℚ) (num i : ℕ) (h2 : 2 ≤ num)
    (hi : i < num) :
    (linspaceQ start stop num)[i]? =
      some (start + (stop - start) * (i : ℚ) / ((num : ℚ) - 1)) := by
  unfold linspaceQ
  rw [if_neg (by omega), if_neg (by omega)]
  rw [List.getElem?_map, List.getElem?_range hi]
  rfl

/-- Helper: a five-frame stereo buffer. -/
def framesFive : List (List ℚ) := List.replicate 5 [0, 0]

/-- Refutation of C6: resampling five frames from rate 2 to rate 3
produces `int(5 * 3/2) = 7` frames (Python `int()` truncates), not the
claimed `round(5 * 3/2) = 8` frames. -/
theorem claim_C6_counterexample :
    (resample framesFive 2 3).length = 7 ∧
    (round (((3 : ℚ) / 2) * (framesFive.length : ℚ))).toNat = 8 ∧
    (resample framesFive 2 3).length ≠
      (round (((3 : ℚ) / 2) * (framesFive.length : ℚ))).toNat := by
  have hlen : (resample framesFive 2 3).length = 7 := by
    unfold resample
    rw [if_neg (by omega)]
    rw [List.length_map, linspaceQ_length]
    simp [framesFive]
  have hround :
      (round (((3 : ℚ) / 2) * (framesFive.length : ℚ))).toNat = 8 := by
    have h5 : (framesFive.length : ℚ) = 5 := by simp [framesFive]
    rw [h5]
    have h8 : round (((3 : ℚ) / 2) * 5) = 8 := by
      rw [round_eq]
      norm_num
    rw [h8]
    rfl
  exact ⟨hlen, hround, by omega⟩

/-- C6 as amended: for `orig ≠ target` the resampler produces
`floor(frames * target / orig)` frames (Python `int()` truncation, not
rounding), and output index `i` interpolates at source position
`(frames - 1) * i / (out_frames - 1)` (the numpy `linspace` spacing,
not `i * orig / target`), between the floor neighbour and the neighbour
`floor + 1` capped at the last frame, by the fractional part. -/
theorem claim_C6_amended_resample (data : List (List ℚ)) (o t : ℕ)
    (h : o ≠ t) :
    (resample data o t).length = data.length * t / o ∧
    (∀ i, 2 ≤ data.length * t / o → i < data.length * t / o →
      (resample data o t).getD i [] =
        (fun pos =>
          lerpRow (data.getD (Int.floor pos).toNat [])
            (data.getD (min ((Int.floor pos).toNat + 1) (data.length - 1)) [])
            (pos - ((Int.floor pos).toNat : ℚ)))
        (((data.length : ℚ) - 1) * (i : ℚ) /
          (((data.length * t / o : ℕ) : ℚ) - 1))) := by
  constructor
  · unfold resample
    rw [if_neg h, List.length_map, linspaceQ_length]
  · intro i h2 hi
    unfold resample
    rw [if_neg h]
    rw [List.getD_eq_getElem?_getD, List.getElem?_map,
      linspaceQ_getElem 0 ((data.length : ℚ) - 1) _ i h2 hi]
    simp only [Option.map_some', Option.getD_some, zero_add, sub_zero]

/-- Concrete check of the amended C6 length formula. -/
theorem claim_C6_amended_resample_witness :
    (resample framesFive 2 3).length = 7 :=
  ((claim_C6_amended_resample framesFive 2 3 (by omega)).1).trans (by decide)

/-- Concrete check of C5: a two-frame mono source is duplicated into
two identical channels. -/
theorem claim_C5_decode_two_channels_witness :
    ensure_stereo [[(3 : ℚ)], [(4 : ℚ)]] = [[3, 3], [4, 4]] :=
  ((claim_C5_decode_two_channels [[(3 : ℚ)], [(4 : ℚ)]] 1 1 2 (le_refl 1)
    (by simp)).2.1 rfl).trans rfl

/-- The per-instance invariant maintained by every engine operation:
the cursor never exceeds the clip frame count, and a finished instance
has its cursor exactly at the frame count. -/
def instOk (p : PlayingSound) : Bool :=
  decide (p.position ≤ p.clip.data.length) &&
    (!p.finished || decide (p.position = p.clip.data.length))

/-- Helper: one pull preserves the per-instance invariant. -/
theorem get_samples_instOk (p : PlayingSound) (n : ℕ)
    (h : instOk p = true) : instOk (p.get_samples n).2 = true := by
  simp only [instOk, Bool.and_eq_true, Bool.or_eq_true, Bool.not_eq_true',
    decide_eq_true_eq] at h
  obtain ⟨h1, h2⟩ := h
  unfold PlayingSound.get_samples
  by_cases hf : p.finished = true
  · rw [if_pos hf]
    simp only [instOk, Bool.and_eq_true, Bool.or_eq_true, Bool.not_eq_true',
      decide_eq_true_eq]
    refine ⟨h1, Or.inr ?_⟩
    rcases h2 with h2 | h2
    · rw [hf] at h2
      cases h2
    · exact h2
  · rw [if_neg hf]
    by_cases he : p.clip.data.length ≤ p.position
    · rw [if_pos he]
      simp only [instOk, Bool.and_eq_true, Bool.or_eq_true,
        Bool.not_eq_true', decide_eq_true_eq]
      exact ⟨h1, Or.inr (by omega)⟩
    · rw [if_neg he]
      by_cases hc : min n (p.clip.data.length - p.position) < n
      · rw [if_pos hc]
        simp only [instOk, Bool.and_eq_true, Bool.or_eq_true,
          Bool.not_eq_true', decide_eq_true_eq]
        exact ⟨by omega, Or.inr (by omega)⟩
      · rw [if_neg hc]
        simp only [instOk, Bool.and_eq_true, Bool.or_eq_true,
          Bool.not_eq_true', decide_eq_true_eq]
        rw [Bool.not_eq_true] at hf
        exact ⟨by omega, Or.inl hf⟩

/-- Helper: filtering preserves an `all` property. -/
theorem allInstOk_filter (l : List PlayingSound)
    (q : PlayingSound → Bool) (h : l.all instOk = true) :
    (l.filter q).all instOk = true := by
  rw [List.all_eq_true] at h ⊢
  intro x hx
  exact h x (List.mem_filter.mp hx).1

/-- Helper: the mix loop preserves the per-instance invariant of every
instance in the live list. -/
theorem mixLoop_snd_instOk (n : ℕ) (ps : List PlayingSound)
    (acc : List Frame) (h : ps.all instOk = true) :
    (mixLoop n ps acc).2.all instOk = true := by
  induction ps generalizing acc with
  | nil => simp [mixLoop]
  | cons p ps ih =>
    rw [List.all_cons, Bool.and_eq_true] at h
    by_cases hf : p.finished
    · simp only [mixLoop, if_pos hf, List.all_cons, Bool.and_eq_true]
      exact ⟨h.1, ih _ h.2⟩
    · simp only [mixLoop, if_neg hf, List.all_cons, Bool.and_eq_true]
      exact ⟨get_samples_instOk p n h.1, ih _ h.2⟩

/-- Helper: `start` does not touch the live set. -/
theorem start_playing (e : AudioEngine) (q : Option ℕ) :
    (e.start q).playing = e.playing := by
  by_cases h :
    detectEffectiveRate e.virtual_cable_device q = e.effective_rate <;>
    simp [AudioEngine.start, h]

/-- Helper: a conditional `start` does not touch the live set. -/
theorem ite_start_playing (c : Prop) [Decidable c] (e : AudioEngine)
    (q : Option ℕ) :
    (if c then e.start q else e).playing = e.playing := by
  split
  · exact start_playing e q
  · rfl

/-- Helper: `load_sound` does not touch the live set. -/
theorem load_sound_playing (e : AudioEngine)
    (dec : String → ℕ → Option (List Frame)) (path : String) :
    (e.load_sound dec path).2.playing = e.playing := by
  unfold AudioEngine.load_sound
  rcases e.cache.lookup path with _ | clip
  · rcases dec path e.effective_rate with _ | d <;> rfl
  · rfl

/-- Helper: every engine operation preserves the per-instance
invariant across the live set. -/
theorem applyOp_instOk (dec : String → ℕ → Option (List Frame))
    (q : Option ℕ) (sa ca : Bool) (e : AudioEngine) (op : EngineOp)
    (h : e.playing.all instOk = true) :
    (applyOp dec q sa ca e op).playing.all instOk = true := by
  cases op with
  | play path v =>
    show (e.play_sound dec q sa ca path v).playing.all instOk = true
    unfold AudioEngine.play_sound
    split
    · next e1 heq =>
      have he1 : e1.playing = e.playing := by
        have hlp := load_sound_playing e dec path
        rw [heq] at hlp
        exact hlp
      rw [he1]
      exact h
    · next clip e1 heq =>
      have he1 : e1.playing = e.playing := by
        have hlp := load_sound_playing e dec path
        rw [heq] at hlp
        exact hlp
      rw [ite_start_playing, ite_start_playing]
      dsimp only
      rw [List.all_append, he1, Bool.and_eq_true]
      refine ⟨h, ?_⟩
      simp [instOk]
  | stopOne path =>
    show (e.stop_sound path).playing.all instOk = true
    unfold AudioEngine.stop_sound
    dsimp only
    exact allInstOk_filter _ _ h
  | stopAll =>
    simp [applyOp, AudioEngine.stop_all]
  | tick n =>
    show ((e.mix_playing_sounds n).2).playing.all instOk = true
    unfold AudioEngine.mix_playing_sounds
    dsimp only
    exact allInstOk_filter _ _ (mixLoop_snd_instOk n e.playing _ h)

/-- Helper: the per-instance invariant holds after any operation
sequence from a state satisfying it. -/
theorem runOps_instOk (dec : String → ℕ → Option (List Frame))
    (q : Option ℕ) (sa ca : Bool) (ops : List EngineOp) (e : AudioEngine)
    (h : e.playing.all instOk = true) :
    (runOps dec q sa ca e ops).playing.all instOk = true := by
  induction ops generalizing e with
  | nil => exact h
  | cons op ops ih =>
    exact ih _ (applyOp_instOk dec q sa ca e op h)

/-- Helper: a decoder oracle producing a four-frame clip for every
path. -/
def decFour : String → ℕ → Option (List Frame) :=
  fun _ _ => some (List.replicate 4 zeroFrame)

/-- Refutation of C8: after `play` followed by one tick of exactly the
clip length (4 frames), the instance cursor has reached end-of-clip but
the finished flag is not yet set (it is set only on the next pull), so
`get_playing_count` returns 1 while the number of instances with cursor
strictly below the frame count is 0. -/
theorem claim_C8_counterexample :
    (runOps decFour none true true initEngine
      [.play "a" 1, .tick 4]).get_playing_count = 1 ∧
    ((runOps decFour none true true initEngine
      [.play "a" 1, .tick 4]).playing.countP
        (fun p => decide (p.position < p.clip.data.length))) = 0 := by
  constructor
  · rfl
  · rfl

/-- C8 as amended: after every operation sequence `get_playing_count`
returns the number of live instances not yet marked finished; by the
maintained invariant this equals the number of instances whose cursor
is strictly below the clip frame count or exactly at it with the
finished flag still unset (the flag lags the cursor by one pull when a
tick consumes exactly the remaining frames). -/
theorem claim_C8_amended_count (dec : String → ℕ → Option (List Frame))
    (q : Option ℕ) (sa ca : Bool) (ops : List EngineOp) :
    (runOps dec q sa ca initEngine ops).playing.all instOk = true ∧
    (runOps dec q sa ca initEngine ops).get_playing_count =
      (runOps dec q sa ca initEngine ops).playing.countP
        (fun p => !p.finished) ∧
    (runOps dec q sa ca initEngine ops).get_playing_count =
      (runOps dec q sa ca initEngine ops).playing.countP
        (fun p => decide (p.position < p.clip.data.length) ||
          (decide (p.position = p.clip.data.length) && !p.finished)) := by
  have hinv : (runOps dec q sa ca initEngine ops).playing.all instOk
      = true := runOps_instOk dec q sa ca ops initEngine (by rfl)
  refine ⟨hinv, ?_, ?_⟩
  · rw [AudioEngine.get_playing_count, List.countP_eq_length_filter]
  · rw [AudioEngine.get_playing_count, ← List.countP_eq_length_filter]
    apply List.countP_congr
    intro p hp
    have hok := (List.all_eq_true.mp hinv) p hp
    simp only [instOk, Bool.and_eq_true, Bool.or_eq_true, Bool.not_eq_true',
      decide_eq_true_eq] at hok
    simp only [Bool.or_eq_true, Bool.and_eq_true, Bool.not_eq_true',
      decide_eq_true_eq]
    constructor
    · intro hnf
      rcases Nat.lt_or_ge p.position p.clip.data.length with hl | hl
      · exact Or.inl hl
      · exact Or.inr ⟨by omega, hnf⟩
    · intro hor
      rcases hok.2 with h2 | h2
      · exact h2
      · rcases hor with hl | ⟨_, hnf⟩
        · omega
        · exact hnf

/-- Helper: a wrap-around slice of `k ≤ cap` frames has length `k`. -/
theorem ringSlice_length (ring : List Frame) (cap start k : ℕ)
    (hring : ring.length = cap) (hs : start < cap) (hk : k ≤ cap) :
    (ringSlice ring cap start k).length = k := by
  unfold ringSlice
  split
  · rw [List.length_take, List.length_drop, hring]
    omega
  · rw [List.length_append, List.length_drop, List.length_take, hring]
    omega

/-- Helper: the `i`-th frame of a wrap-around slice starting at
`start` is the ring frame at `(start + i) mod cap`. -/
theorem ringSlice_getD (ring : List Frame) (cap start k i : ℕ)
    (hring : ring.length = cap) (hs : start < cap) (hk : k ≤ cap)
    (hi : i < k) :
    (ringSlice ring cap start k).getD i zeroFrame =
      ring.getD ((start + i) % cap) zeroFrame := by
  unfold ringSlice
  rw [List.getD_eq_getElem?_getD, List.getD_eq_getElem?_getD]
  split
  · next h =>
    rw [List.getElem?_take, if_pos hi, List.getElem?_drop,
      Nat.mod_eq_of_lt (by omega)]
  · next h =>
    rw [List.getElem?_append]
    rw [List.length_drop, hring]
    by_cases hfirst : i < cap - start
    · rw [if_pos hfirst, List.getElem?_drop, Nat.mod_eq_of_lt (by omega)]
    · rw [if_neg hfirst, List.getElem?_take,
        if_pos (by omega : i - (cap - start) < k - (cap - start))]
      have hmod : (start + i) % cap = i - (cap - start) := by
        have h1 : start + i = cap + (i - (cap - start)) := by omega
        rw [h1, Nat.add_mod_left, Nat.mod_eq_of_lt (by omega)]
      rw [hmod]

/-- C3: for every ring state and block size `n ≤ cap/2`: with
`available = (wp - rp) mod cap`, if `available > cap/2` the reader
jumps to `(wp - n) mod cap`, reads exactly `n` frames from there (its
cursor lands exactly on `wp`, and the distance from the jumped cursor
to the writer is exactly `n`, so nothing unwritten is read); otherwise
it copies `min(n, available)` frames starting at `rp` with wrap-around,
zero-pads the rest of the `n`-frame block, and advances its cursor by
the number of frames copied, never past the writer
(`min(n, available) ≤ available`). -/
theorem claim_C3_ring_read (ring : List Frame) (cap rp0 wp n : ℕ)
    (hring : ring.length = cap) (hrp : rp0 < cap) (hwp : wp < cap)
    (hn : 0 < n) (hn2 : n ≤ cap / 2) :
    (cap / 2 < (((wp : ℤ) - (rp0 : ℤ)).emod (cap : ℤ)).toNat →
      (micRelayRead ring cap rp0 wp n).2 = wp ∧
      (micRelayRead ring cap rp0 wp n).1.length = n ∧
      ((((wp : ℤ) -
          (((((wp : ℤ) - (n : ℤ)).emod (cap : ℤ)).toNat : ℕ) : ℤ)).emod
          (cap : ℤ)).toNat = n) ∧
      (∀ i, i < n →
        (micRelayRead ring cap rp0 wp n).1.getD i zeroFrame =
          ring.getD
            (((((wp : ℤ) - (n : ℤ)).emod (cap : ℤ)).toNat + i) % cap)
            zeroFrame)) ∧
    ((((wp : ℤ) - (rp0 : ℤ)).emod (cap : ℤ)).toNat ≤ cap / 2 →
      (micRelayRead ring cap rp0 wp n).2 =
        (rp0 + min n (((wp : ℤ) - (rp0 : ℤ)).emod (cap : ℤ)).toNat) % cap ∧
      (micRelayRead ring cap rp0 wp n).1 =
        ringSlice ring cap rp0
            (min n (((wp : ℤ) - (rp0 : ℤ)).emod (cap : ℤ)).toNat) ++
          silence (n - min n (((wp : ℤ) - (rp0 : ℤ)).emod (cap : ℤ)).toNat) ∧
      min n (((wp : ℤ) - (rp0 : ℤ)).emod (cap : ℤ)).toNat ≤
        (((wp : ℤ) - (rp0 : ℤ)).emod (cap : ℤ)).toNat ∧
      (∀ i, i < min n (((wp : ℤ) - (rp0 : ℤ)).emod (cap : ℤ)).toNat →
        (micRelayRead ring cap rp0 wp n).1.getD i zeroFrame =
          ring.getD ((rp0 + i) % cap) zeroFrame) ∧
      (∀ i, min n (((wp : ℤ) - (rp0 : ℤ)).emod (cap : ℤ)).toNat ≤ i →
        i < n →
        (micRelayRead ring cap rp0 wp n).1.getD i zeroFrame = zeroFrame)) := by
  have hcap0 : 0 < cap := by omega
  have hcapz : (cap : ℤ) ≠ 0 := by
    exact_mod_cast Nat.pos_iff_ne_zero.mp hcap0
  have hcapz2 : (0 : ℤ) < (cap : ℤ) := by exact_mod_cast hcap0
  have hncap : n < cap := by omega
  constructor
  · intro hA
    have hjnn : 0 ≤ ((wp : ℤ) - (n : ℤ)).emod (cap : ℤ) :=
      Int.emod_nonneg _ hcapz
    have hjlt : ((wp : ℤ) - (n : ℤ)).emod (cap : ℤ) < (cap : ℤ) :=
      Int.emod_lt_of_pos _ hcapz2
    have hjcap : (((wp : ℤ) - (n : ℤ)).emod (cap : ℤ)).toNat < cap := by
      omega
    have hjz : (((((wp : ℤ) - (n : ℤ)).emod (cap : ℤ)).toNat : ℕ) : ℤ) =
        ((wp : ℤ) - (n : ℤ)).emod (cap : ℤ) := Int.toNat_of_nonneg hjnn
    have hread : micRelayRead ring cap rp0 wp n =
        (ringSlice ring cap (((wp : ℤ) - (n : ℤ)).emod (cap : ℤ)).toNat n ++
           silence (n - n),
         ((((wp : ℤ) - (n : ℤ)).emod (cap : ℤ)).toNat + n) % cap) := by
      simp only [micRelayRead, hA, if_true, Nat.min_self, hn]
    have hslicelen :
        (ringSlice ring cap (((wp : ℤ) - (n : ℤ)).emod (cap : ℤ)).toNat
          n).length = n :=
      ringSlice_length ring cap _ n hring hjcap (by omega)
    refine ⟨?_, ?_, ?_, ?_⟩
    · rw [hread]
      have hz : ((((((wp : ℤ) - (n : ℤ)).emod (cap : ℤ)).toNat + n) % cap :
          ℕ) : ℤ) = (wp : ℤ) := by
        push_cast
        rw [hjz]
        show (((wp : ℤ) - (n : ℤ)) % (cap : ℤ) + (n : ℤ)) % (cap : ℤ) =
          (wp : ℤ)
        rw [Int.emod_add_emod, sub_add_cancel]
        exact Int.emod_eq_of_lt (by positivity) (by exact_mod_cast hwp)
      exact_mod_cast hz
    · rw [hread]
      rw [List.length_append, hslicelen]
      simp [silence]
    · have hd : ((wp : ℤ) -
          (((((wp : ℤ) - (n : ℤ)).emod (cap : ℤ)).toNat : ℕ) : ℤ)).emod
          (cap : ℤ) = (n : ℤ) := by
        rw [hjz]
        show ((wp : ℤ) - ((wp : ℤ) - (n : ℤ)) % (cap : ℤ)) % (cap : ℤ) =
          (n : ℤ)
        rw [Int.sub_emod (wp : ℤ) (((wp : ℤ) - (n : ℤ)) % (cap : ℤ)),
          Int.emod_emod_of_dvd _ dvd_rfl, ← Int.sub_emod, sub_sub_cancel]
        exact Int.emod_eq_of_lt (by positivity) (by exact_mod_cast hncap)
      omega
    · intro i hi
      rw [hread]
      have happ : ((ringSlice ring cap
            (((wp : ℤ) - (n : ℤ)).emod (cap : ℤ)).toNat n ++
            silence (n - n))).getD i zeroFrame =
          (ringSlice ring cap
            (((wp : ℤ) - (n : ℤ)).emod (cap : ℤ)).toNat n).getD i
            zeroFrame := by
        rw [List.getD_eq_getElem?_getD, List.getElem?_append,
          if_pos (by rw [hslicelen]; omega), ← List.getD_eq_getElem?_getD]
      rw [happ]
      exact ringSlice_getD ring cap _ n i hring hjcap (by omega) hi
  · intro hB
    have hBn : ¬ (cap / 2 <
        (((wp : ℤ) - (rp0 : ℤ)).emod (cap : ℤ)).toNat) := not_lt.mpr hB
    by_cases hk : 0 < min n (((wp : ℤ) - (rp0 : ℤ)).emod (cap : ℤ)).toNat
    · have hread : micRelayRead ring cap rp0 wp n =
          (ringSlice ring cap rp0
              (min n (((wp : ℤ) - (rp0 : ℤ)).emod (cap : ℤ)).toNat) ++
            silence
              (n - min n (((wp : ℤ) - (rp0 : ℤ)).emod (cap : ℤ)).toNat),
           (rp0 + min n (((wp : ℤ) - (rp0 : ℤ)).emod (cap : ℤ)).toNat) %
             cap) := by
        simp only [micRelayRead, hBn, if_false, hk, if_true]
      have hkcap :
          min n (((wp : ℤ) - (rp0 : ℤ)).emod (cap : ℤ)).toNat ≤ cap := by
        omega
      have hslicelen : (ringSlice ring cap rp0
          (min n (((wp : ℤ) - (rp0 : ℤ)).emod (cap : ℤ)).toNat)).length =
          min n (((wp : ℤ) - (rp0 : ℤ)).emod (cap : ℤ)).toNat :=
        ringSlice_length ring cap rp0 _ hring hrp hkcap
      refine ⟨by rw [hread], by rw [hread], min_le_right _ _, ?_, ?_⟩
      · intro i hi
        rw [hread]
        have happ : ((ringSlice ring cap rp0
              (min n (((wp : ℤ) - (rp0 : ℤ)).emod (cap : ℤ)).toNat) ++
              silence (n - min n
                (((wp : ℤ) - (rp0 : ℤ)).emod (cap : ℤ)).toNat))).getD i
              zeroFrame =
            (ringSlice ring cap rp0
              (min n (((wp : ℤ) - (rp0 : ℤ)).emod (cap : ℤ)).toNat)).getD i
              zeroFrame := by
          rw [List.getD_eq_getElem?_getD, List.getElem?_append,
            if_pos (by rw [hslicelen]; omega), ← List.getD_eq_getElem?_getD]
        rw [happ]
        exact ringSlice_getD ring cap rp0 _ i hring hrp hkcap hi
      · intro i hi1 hi2
        rw [hread]
        rw [List.getD_eq_getElem?_getD, List.getElem?_append,
          if_neg (by rw [hslicelen]; omega), hslicelen]
        rw [show silence (n - min n
            (((wp : ℤ) - (rp0 : ℤ)).emod (cap : ℤ)).toNat) =
          List.replicate (n - min n
            (((wp : ℤ) - (rp0 : ℤ)).emod (cap : ℤ)).toNat) zeroFrame
          from rfl]
        rw [List.getElem?_replicate, if_pos (by omega)]
        rfl
    · have hmin0 :
          min n (((wp : ℤ) - (rp0 : ℤ)).emod (cap : ℤ)).toNat = 0 := by
        omega
      have hread : micRelayRead ring cap rp0 wp n = (silence n, rp0) := by
        simp only [micRelayRead, hBn, if_false, hk, if_true]
      refine ⟨?_, ?_, ?_, ?_, ?_⟩
      · rw [hread, hmin0, Nat.add_zero, Nat.mod_eq_of_lt hrp]
      · rw [hread, hmin0, Nat.sub_zero]
        have hsl : ringSlice ring cap rp0 0 = [] := by
          unfold ringSlice
          rw [if_pos (by omega)]
          rfl
        rw [hsl, List.nil_append]
      · omega
      · intro i hi
        rw [hmin0] at hi
        omega
      · intro i hi1 hi2
        rw [hread]
        rw [show silence n = List.replicate n zeroFrame from rfl]
        rw [List.getD_eq_getElem?_getD, List.getElem?_replicate,
          if_pos hi2]
        rfl

/-- Helper: an eight-frame ring with recognisable contents. -/
def ringEight : List Frame := (List.range 8).map (fun i => ((i : ℚ), (i : ℚ)))

/-- Concrete check of C3 (normal branch): reader at 1, writer at 4,
block 2 in a ring of 8 advances the cursor to 3. -/
theorem claim_C3_ring_read_witness :
    (micRelayRead ringEight 8 1 4 2).2 = 3 :=
  (((claim_C3_ring_read ringEight 8 1 4 2 (by rfl) (by decide) (by decide)
    (by decide) (by decide)).2 (by decide)).1).trans (by decide)

end Vyber
